import Mathlib

/-!
Verification of the METR-Compilation repository: four stand-alone Python
analysis scripts (ACARS sounding, HRRR meteogram, RAOB cross section, and
Warning/LSR map).  Every definition below is a shallow embedding of a piece
of the Python source; machine floats are modelled by exact rationals (or
reals where the source applies `np.log`), pandas tables by lists, and
fallible Python code by `Except`-valued functions.
-/

/-! ## HRRR meteogram helpers (part_000, lines 117-129)

`round` in Python rounds half to even; `roundup`/`rounddown` first shift the
argument by the literal `5` and then snap to a multiple of `base`.
-/

/-- Python built-in `round` on a rational: nearest integer, ties to even. -/
def pyRound (q : ℚ) : ℤ :=
  if q - ⌊q⌋ < 1/2 then ⌊q⌋
  else if 1/2 < q - ⌊q⌋ then ⌊q⌋ + 1
  else if ⌊q⌋ % 2 = 0 then ⌊q⌋ else ⌊q⌋ + 1

/-- `roundup(x, base)` from the HRRR meteogram script: `x = x + 5`,
`base = base * round(x/base)`, `return base`. -/
def roundup (x : ℚ) (base : ℚ) : ℚ := base * pyRound ((x + 5) / base)

/-- `rounddown(x, base)` from the HRRR meteogram script: `x = x - 5`,
`base = base * round(x/base)`, `return base`. -/
def rounddown (x : ℚ) (base : ℚ) : ℚ := base * pyRound ((x - 5) / base)

theorem pyRound_bounds (q : ℚ) :
    q - 1/2 ≤ (pyRound q : ℚ) ∧ (pyRound q : ℚ) ≤ q + 1/2 := by
  have h1 : ((⌊q⌋ : ℤ) : ℚ) ≤ q := Int.floor_le q
  have h2 : q < (⌊q⌋ : ℚ) + 1 := Int.lt_floor_add_one q
  unfold pyRound
  split_ifs with ha hb hc <;> constructor <;> push_cast <;> linarith

/-- Claim C9: with the default base of 5, `roundup x = 5*round((x+5)/5)` is a
multiple of 5 lying in `[x + 2.5, x + 7.5]`, `rounddown x = 5*round((x-5)/5)`
is a multiple of 5 lying in `[x - 7.5, x - 2.5]`, and in particular
`rounddown x < x < roundup x`, so the y-axis limits plotted at line 187
strictly bracket the data extremes. -/
theorem roundup_rounddown_bracket (x : ℚ) :
    (∃ k : ℤ, roundup x 5 = 5 * k) ∧ (∃ k : ℤ, rounddown x 5 = 5 * k) ∧
    x + 5/2 ≤ roundup x 5 ∧ roundup x 5 ≤ x + 15/2 ∧
    x - 15/2 ≤ rounddown x 5 ∧ rounddown x 5 ≤ x - 5/2 ∧
    rounddown x 5 < x ∧ x < roundup x 5 := by
  obtain ⟨hu1, hu2⟩ := pyRound_bounds ((x + 5) / 5)
  obtain ⟨hd1, hd2⟩ := pyRound_bounds ((x - 5) / 5)
  have eu : (5 : ℚ) * ((x + 5) / 5) = x + 5 := by ring
  have ed : (5 : ℚ) * ((x - 5) / 5) = x - 5 := by ring
  refine ⟨⟨pyRound ((x + 5) / 5), rfl⟩, ⟨pyRound ((x - 5) / 5), rfl⟩, ?_, ?_, ?_, ?_, ?_, ?_⟩ <;>
    simp only [roundup, rounddown] <;> linarith

/-! ## RAOB cross-section grids (part_000, lines 276-361)

`np.arange(start, stop, step)` and `np.linspace(a, b, num)` over exact
rationals, and the shape of the grids built by `radisonde_cross_section`.
The 2-D `scipy.interpolate.griddata` interpolant, evaluated pointwise on the
meshgrid of `x` and `vertical_levels`, is kept as an arbitrary parameter `F`
since only the produced values, not the shape, depend on it.
-/

/-- `np.arange start stop step`: the values `start + i*step` while they lie
before `stop` in the direction of `step`; its length is
`max 0 ⌈(stop-start)/step⌉`. -/
def np_arange (start stop step : ℚ) : List ℚ :=
  (List.range (if step = 0 then 0 else (⌈(stop - start) / step⌉).toNat)).map
    (fun i : ℕ => start + (i : ℚ) * step)

/-- `np.linspace a b num` with the default inclusive endpoint. -/
def np_linspace (a b : ℚ) (num : ℕ) : List ℚ :=
  (List.range num).map (fun i : ℕ => a + (b - a) * (i : ℚ) / ((num : ℚ) - 1))

/-- The vertical grid of `radisonde_cross_section`
(line 305: `np.arange(start, end-1, -step)`). -/
def vertical_levels (start end_ step : ℚ) : List ℚ := np_arange start (end_ - 1) (-step)

/-- The horizontal grid of `radisonde_cross_section`
(line 344: `np.linspace(dist[0], dist[-1], 100)`). -/
def xsect_x (dist : List ℚ) : List ℚ := np_linspace (dist.headD 0) (dist.getLastD 0) 100

/-- The `grid_data` dictionary of `radisonde_cross_section` (lines 343-356):
for each key an `nx × plevs` array whose `(i, j)` entry is the 2-D
interpolant `F` evaluated at `(x[i], vertical_levels[j])`. -/
def xsect_grid (F : String → ℚ → ℚ → ℚ) (keys : List String) (dist : List ℚ)
    (start end_ step : ℚ) : List (String × List (List ℚ)) :=
  keys.map (fun k =>
    (k, (xsect_x dist).map (fun xi =>
      (vertical_levels start end_ step).map (fun p => F k xi p))))

/-- Claim C8: with the defaults `start=1000, end=100, step=10`,
`radisonde_cross_section` builds a vertical grid of exactly 91 levels
`1000, 990, ..., 100` and a horizontal grid of exactly 100 points running
from the first to the last station distance, so every `grid_data` array has
shape `100 × 91` (not the 90 levels stated in its docstring). -/
theorem radisonde_cross_section_shape (F : String → ℚ → ℚ → ℚ)
    (keys : List String) (dist : List ℚ) :
    vertical_levels 1000 100 10 = (List.range 91).map (fun i : ℕ => (1000 : ℚ) - 10 * (i : ℚ)) ∧
    (vertical_levels 1000 100 10).length = 91 ∧
    (xsect_x dist).length = 100 ∧
    (xsect_x dist)[0]? = some (dist.headD 0) ∧
    (xsect_x dist)[99]? = some (dist.getLastD 0) ∧
    (∀ kv ∈ xsect_grid F keys dist 1000 100 10,
      kv.2.length = 100 ∧ ∀ row ∈ kv.2, row.length = 91) := by
  have hN : (⌈(((100 : ℚ) - 1) - 1000) / (-10)⌉).toNat = 91 := by
    have h : (((100 : ℚ) - 1) - 1000) / (-10) = 901/10 := by norm_num
    have h2 : ⌈(901/10 : ℚ)⌉ = (91 : ℤ) := by
      rw [Int.ceil_eq_iff]
      norm_num
    rw [h, h2]
    rfl
  have hlev : vertical_levels 1000 100 10 =
      (List.range 91).map (fun i : ℕ => (1000 : ℚ) - 10 * (i : ℚ)) := by
    unfold vertical_levels np_arange
    rw [if_neg (by norm_num), hN]
    exact List.map_congr_left (fun i _ => by ring)
  have hlen : (vertical_levels 1000 100 10).length = 91 := by
    rw [hlev]; simp
  have hxlen : (xsect_x dist).length = 100 := by
    unfold xsect_x np_linspace; simp
  refine ⟨hlev, hlen, hxlen, ?_, ?_, ?_⟩
  · unfold xsect_x np_linspace
    rw [List.getElem?_map, List.getElem?_range (by norm_num)]
    norm_num
  · unfold xsect_x np_linspace
    rw [List.getElem?_map, List.getElem?_range (by norm_num)]
    norm_num
  · intro kv hkv
    unfold xsect_grid at hkv
    rw [List.mem_map] at hkv
    obtain ⟨k, -, rfl⟩ := hkv
    refine ⟨by simpa using hxlen, ?_⟩
    intro row hrow
    rw [List.mem_map] at hrow
    obtain ⟨xi, -, rfl⟩ := hrow
    simpa using hlen

/-! ## Network calls of the four scripts (claim C6)

Each script is a straight-line program (the only loop containing a network
call is the RAOB station loop, lines 392-393).  The traces below transcribe,
in source order, the outbound calls each script makes.
-/

/-- A single outbound network request, as made by one of the scripts. -/
inductive NetCall where
  | get (url : String)
  | wyomingRequest (date : String) (station : String)
  | tdsCatalog (url : String)
  | ncssSubset
  | ncssGetData
deriving DecidableEq

/-- One top-level step of a script run. -/
inductive ScriptStep where
  | net (c : NetCall)
  | compute
  | plot
deriving DecidableEq

/-- The outbound network calls made during a trace. -/
def netCalls (t : List ScriptStep) : List NetCall :=
  t.filterMap (fun s => match s with | .net c => some c | _ => none)

def acars_sounding_url : String :=
  "https://sharp.weather.ou.edu/soundings/acars/2023/07/02/16/YNN_1620.txt"

/-- ACARS Sounding.py: one `urllib.request.urlopen` (line 25), then parsing,
computation and plotting. -/
def acars_script : List ScriptStep :=
  [.net (.get acars_sounding_url), .compute, .plot]

def hrrr_catalog_url : String :=
  "https://thredds-test.unidata.ucar.edu/thredds/catalog/grib/NCEP/HRRR/CONUS_2p5km/latest.xml"

/-- HRRR Meteogram.py: the `TDSCatalog` constructor fetches the catalog
(line 133), `cat.datasets[0].subset()` fetches the subset-service description
(line 135), and `ncss.get_data(point_query)` fetches the data (line 143). -/
def hrrr_script : List ScriptStep :=
  [.net (.tdsCatalog hrrr_catalog_url), .net .ncssSubset, .net .ncssGetData,
   .compute, .plot]

/-- Station list of RAOB Cross Section.py (line 373). -/
def stn_list : List String := ["LBF", "OAX", "DVN", "DTX", "BUF"]

/-- RAOB Cross Section.py: one `WyomingUpperAir.request_data` per station in
`stn_list` (lines 392-393), then interpolation and plotting. -/
def raob_script : List ScriptStep :=
  (stn_list.map (fun s => .net (.wyomingRequest "2023-06-29 12:00 UTC" s))) ++
    [.compute, .plot]

def tor_url : String := "https://www.spc.noaa.gov/climo/reports/230615_rpts_torn.csv"
def hail_url : String := "https://www.spc.noaa.gov/climo/reports/230615_rpts_hail.csv"
def wind_url : String := "https://www.spc.noaa.gov/climo/reports/230615_rpts_wind.csv"
def cow_url : String :=
  "https://mesonet.agron.iastate.edu/api/1/cow.json?wfo=DTX&begints=2023-06-15T12:00:00Z&endts=2023-06-16T12:00:00Z&hailsize=1&wind=58&phenomena=TO&phenomena=SV&phenomena=MA&phenomena=FF&phenomena=DS&lsrbuffer=15&warningbuffer=1"

/-- Warning_LSR_2.py: three `pd.read_csv` fetches (lines 14, 18, 22), the
Speed-conversion loop, one `requests.get` (line 33), then plotting. -/
def warning_lsr_script : List ScriptStep :=
  [.net (.get tor_url), .net (.get hail_url), .net (.get wind_url),
   .compute, .net (.get cow_url), .compute, .plot]

/-- Counterexample to claim C6 as stated: the Warning/LSR script performs
four outbound fetches and the RAOB script five, so "at most one blocking
network call per run" is false. -/
theorem network_single_fetch_false :
    (netCalls warning_lsr_script).length = 4 ∧
    (netCalls raob_script).length = 5 ∧
    ¬ (netCalls warning_lsr_script).length ≤ 1 := by
  decide

/-- Claim C6 (amended): only the ACARS script performs a single HTTP GET to a
fixed hardcoded URL; the HRRR script makes three requests (catalog, subset
service, data query), the RAOB script one Wyoming request per station of its
five-station list, and the Warning/LSR script four GETs to fixed URLs. -/
theorem network_fetch_counts :
    netCalls acars_script = [NetCall.get acars_sounding_url] ∧
    (netCalls hrrr_script).length = 3 ∧
    netCalls raob_script =
      stn_list.map (fun s => NetCall.wyomingRequest "2023-06-29 12:00 UTC" s) ∧
    (netCalls raob_script).length = 5 ∧
    (netCalls warning_lsr_script).length = 4 := by
  decide

/-! ## Python string helpers (shared by the ACARS and Warning/LSR models)

Python strings are modelled as `List Char`.
-/

/-- Python whitespace, as stripped by `str.strip()`. -/
def isPySpace (c : Char) : Bool :=
  c = ' ' || c = '\t' || c = '\n' || c = '\r' || c = '\x0b' || c = '\x0c'

/-- Python `str.strip()`. -/
def pyStrip (l : List Char) : List Char :=
  ((l.dropWhile isPySpace).reverse.dropWhile isPySpace).reverse

/-- Value of an all-digit string. -/
def digitsVal (l : List Char) : ℕ := l.foldl (fun a c => 10 * a + (c.toNat - 48)) 0

/-- Unsigned decimal literal: digits with at most one decimal point. -/
def parseUnsigned (t : List Char) : Option ℚ :=
  match t.splitOn '.' with
  | [ip] => if !ip.isEmpty && ip.all Char.isDigit then some (digitsVal ip) else none
  | [ip, fp] =>
      if !(ip.isEmpty && fp.isEmpty) && ip.all Char.isDigit && fp.all Char.isDigit then
        some ((digitsVal ip : ℚ) + (digitsVal fp : ℚ) / 10 ^ fp.length)
      else none
  | _ => none

/-- Numeric-literal parse shared by Python `float()` and pandas
`pd.to_numeric`: optional sign, decimal digits with at most one point,
surrounding whitespace ignored. -/
def parseFloatTok (t : List Char) : Option ℚ :=
  match pyStrip t with
  | '-' :: rest => (parseUnsigned rest).map (fun q => -q)
  | '+' :: rest => parseUnsigned rest
  | t0 => parseUnsigned t0

/-! ## Warning/LSR wind-report Speed column (Warning_LSR_2.py)

The `Speed` column of the wind-report table holds strings from the CSV
(`'UNK'` or numerals), floats produced by the conversion loop, or `nan`.
-/

deriving instance DecidableEq for Except

/-- A Python value held in the `Speed` column. -/
inductive PyVal where
  | str (s : List Char)
  | num (q : ℚ)
  | nan
deriving DecidableEq

/-- Python errors relevant to the Warning/LSR script. -/
inductive PyErr where
  | nameError
  | typeError
deriving DecidableEq

/-- Python `float(value)`: floats pass through (`nan` included), strings are
parsed as numeric literals; `none` is a raised `ValueError`. -/
def pyFloat : PyVal → Option PyVal
  | .str s => (parseFloatTok s).map .num
  | .num q => some (.num q)
  | .nan => some .nan

/-- One iteration of the Speed-conversion loop (Warning_LSR_2.py lines 24-30,
repeated verbatim at lines 82-88).  The `except ValueError:` handler assigns
`np.nan`, but `numpy` is never imported by Warning_LSR_2.py, so evaluating
`np.nan` raises a `NameError` that no handler catches. -/
def speedConvertStep (v : PyVal) : Except PyErr PyVal :=
  if v = .str "UNK".data then .ok v
  else
    match pyFloat v with
    | some w => .ok w
    | none => .error .nameError

/-- The Speed-conversion loop over the whole column; the first raised error
aborts the loop. -/
def convertSpeedCol : List PyVal → Except PyErr (List PyVal)
  | [] => .ok []
  | v :: rest =>
    match speedConvertStep v, convertSpeedCol rest with
    | .error e, _ => .error e
    | .ok _, .error e => .error e
    | .ok w, .ok ws => .ok (w :: ws)

/-- Claim C5 (exhibiting the code bug): on a wind report whose `Speed` is the
non-numeric, non-`'UNK'` string `"ab"`, `float(value)` raises `ValueError`
and the handler `df_wind['Speed'][i] = np.nan` then raises `NameError`
(`numpy` is never imported), which escapes the loop; the entry never becomes
`NaN`. -/
theorem speed_conversion_nameError :
    pyFloat (.str "ab".data) = none ∧
    convertSpeedCol [.str "ab".data, .num 60] = .error .nameError := by
  decide

theorem convertSpeedCol_cons (v : PyVal) (rest : List PyVal) :
    convertSpeedCol (v :: rest) =
      match speedConvertStep v, convertSpeedCol rest with
      | .error e, _ => .error e
      | .ok _, .error e => .error e
      | .ok w, .ok ws => .ok (w :: ws) := rfl

theorem convertSpeedCol_ok_length {l col : List PyVal}
    (h : convertSpeedCol l = .ok col) : col.length = l.length := by
  induction l generalizing col with
  | nil =>
    unfold convertSpeedCol at h
    cases h
    rfl
  | cons a rest ih =>
    rw [convertSpeedCol_cons] at h
    cases hs : speedConvertStep a <;> rw [hs] at h
    · cases h
    · cases hr : convertSpeedCol rest <;> rw [hr] at h
      · cases h
      · cases h
        simp [ih hr]

theorem convertSpeedCol_ok_get {l col : List PyVal}
    (h : convertSpeedCol l = .ok col) :
    ∀ (i : ℕ) (hi : i < l.length) (hi2 : i < col.length),
      speedConvertStep (l.get ⟨i, hi⟩) = .ok (col.get ⟨i, hi2⟩) := by
  induction l generalizing col with
  | nil =>
    intro i hi
    exact absurd hi (by simp)
  | cons a rest ih =>
    rw [convertSpeedCol_cons] at h
    cases hs : speedConvertStep a <;> rw [hs] at h
    · cases h
    · cases hr : convertSpeedCol rest <;> rw [hr] at h
      · cases h
      · cases h
        intro i hi hi2
        match i with
        | 0 => exact hs
        | j + 1 => exact ih hr j (by simpa using hi) (by simpa using hi2)

/-- Shape of any value produced by one conversion step: the `'UNK'` string,
a float, or `nan`. -/
theorem speedConvertStep_ok_shape {a w : PyVal} (h : speedConvertStep a = .ok w) :
    w = .str "UNK".data ∨ (∃ q : ℚ, w = .num q) ∨ w = .nan := by
  unfold speedConvertStep at h
  split at h
  · cases h
    left
    assumption
  · cases hp : pyFloat a <;> rw [hp] at h
    · cases h
    · cases h
      cases a with
      | str s =>
        simp only [pyFloat, Option.map_eq_some'] at hp
        obtain ⟨q, -, rfl⟩ := hp
        exact Or.inr (Or.inl ⟨q, rfl⟩)
      | num q =>
        simp only [pyFloat, Option.some.injEq] at hp
        subst hp
        exact Or.inr (Or.inl ⟨q, rfl⟩)
      | nan =>
        simp only [pyFloat, Option.some.injEq] at hp
        subst hp
        exact Or.inr (Or.inr rfl)

theorem convertSpeedCol_ok_mem {l col : List PyVal}
    (h : convertSpeedCol l = .ok col) :
    ∀ v ∈ col, v = .str "UNK".data ∨ (∃ q : ℚ, v = .num q) ∨ v = .nan := by
  induction l generalizing col with
  | nil =>
    unfold convertSpeedCol at h
    cases h
    intro v hv
    cases hv
  | cons a rest ih =>
    rw [convertSpeedCol_cons] at h
    cases hs : speedConvertStep a <;> rw [hs] at h
    · cases h
    · cases hr : convertSpeedCol rest <;> rw [hr] at h
      · cases h
      · cases h
        intro v hv
        rcases List.mem_cons.mp hv with rfl | hv2
        · exact speedConvertStep_ok_shape hs
        · exact ih hr v hv2

/-- The two wind-report markers of Warning_LSR_2.py lines 96-100. -/
inductive WindMark where
  | high
  | regular
deriving DecidableEq

/-- Python comparison `value > 65` as used at line 97: floats compare
numerically, `nan > 65` is false, and comparing a string against an int
raises `TypeError` (unreached in the script thanks to the short-circuit
`and`). -/
def pyGT65 : PyVal → Except PyErr Bool
  | .num q => .ok (decide (65 < q))
  | .nan => .ok false
  | .str _ => .error .typeError

/-- The plotting decision for one wind report (lines 96-100): the
short-circuit condition `row['Speed'] != 'UNK' and row['Speed'] > 65`
selects the high-wind marker, anything else the regular marker. -/
def windPlotMark (v : PyVal) : Except PyErr WindMark :=
  if v = .str "UNK".data then .ok .regular
  else
    match pyGT65 v with
    | .error e => .error e
    | .ok b => .ok (if b then .high else .regular)

/-- Plotting marks for the whole wind-report table, one per row. -/
def windPlotMarks : List PyVal → Except PyErr (List WindMark)
  | [] => .ok []
  | v :: rest =>
    match windPlotMark v, windPlotMarks rest with
    | .error e, _ => .error e
    | .ok _, .error e => .error e
    | .ok m, .ok ms => .ok (m :: ms)

/-- The marker claim C10 predicts for a converted `Speed` value. -/
def expectedMark (v : PyVal) : WindMark :=
  match v with
  | .num q => if 65 < q then .high else .regular
  | _ => .regular

theorem windPlotMark_shaped {v : PyVal}
    (h : v = .str "UNK".data ∨ (∃ q : ℚ, v = .num q) ∨ v = .nan) :
    windPlotMark v = .ok (expectedMark v) := by
  rcases h with rfl | ⟨q, rfl⟩ | rfl
  · rfl
  · unfold windPlotMark expectedMark pyGT65
    rw [if_neg (by simp)]
    by_cases h65 : 65 < q <;> simp [h65]
  · rfl

theorem windPlotMarks_shaped {col : List PyVal}
    (h : ∀ v ∈ col, v = .str "UNK".data ∨ (∃ q : ℚ, v = .num q) ∨ v = .nan) :
    windPlotMarks col = .ok (col.map expectedMark) := by
  induction col with
  | nil => rfl
  | cons v rest ih =>
    have hv := windPlotMark_shaped (h v (List.mem_cons_self v rest))
    have hr := ih (fun w hw => h w (List.mem_cons_of_mem v hw))
    unfold windPlotMarks
    rw [hv, hr]
    rfl

/-- Claim C10: after the Speed-conversion loop succeeds, `'UNK'` entries are
unchanged, each wind report produces exactly one plotted mark, and the mark
is the high-wind marker precisely when the speed is a number exceeding 65
(so `'UNK'` and `nan` reports are plotted as regular wind reports). -/
theorem wind_reports_plotted_once (l col : List PyVal)
    (h : convertSpeedCol l = Except.ok col) :
    windPlotMarks col = .ok (col.map expectedMark) ∧
    (col.map expectedMark).length = col.length ∧
    (∀ (i : ℕ) (hi : i < l.length), l.get ⟨i, hi⟩ = .str "UNK".data →
      col[i]? = some (.str "UNK".data)) ∧
    (∀ v : PyVal, expectedMark v = .high ↔
      (v ≠ .str "UNK".data ∧ ∃ q : ℚ, v = .num q ∧ 65 < q)) := by
  refine ⟨windPlotMarks_shaped (convertSpeedCol_ok_mem h), by simp, ?_, ?_⟩
  · intro i hi hunk
    have hi2 : i < col.length := by rw [convertSpeedCol_ok_length h]; exact hi
    have hstep := convertSpeedCol_ok_get h i hi hi2
    rw [hunk] at hstep
    have heq : speedConvertStep (.str "UNK".data) = Except.ok (.str "UNK".data) := rfl
    rw [heq] at hstep
    injection hstep with hval
    rw [List.getElem?_eq_getElem hi2]
    exact congrArg some hval.symm
  · intro v
    cases v with
    | str s =>
      simp only [expectedMark]
      constructor
      · intro hcontra
        cases hcontra
      · rintro ⟨-, q, hq, -⟩
        cases hq
    | num q =>
      constructor
      · intro hhigh
        refine ⟨by simp, q, rfl, ?_⟩
        by_contra h65
        simp only [expectedMark, if_neg h65] at hhigh
        cases hhigh
      · rintro ⟨-, q2, hq2, h65⟩
        cases hq2
        simp only [expectedMark, if_pos h65]
    | nan =>
      simp only [expectedMark]
      constructor
      · intro hcontra
        cases hcontra
      · rintro ⟨-, q, hq, -⟩
        cases hq

/-- A sample wind-report Speed column and its converted form. -/
def wlsr_sample : List PyVal :=
  [.str "UNK".data, .str "70".data, .str "50.5".data, .str "UNK".data]

def wlsr_converted : List PyVal :=
  [.str "UNK".data, .num 70, .num (101/2), .str "UNK".data]

theorem wind_reports_plotted_once_witness :
    convertSpeedCol wlsr_sample = Except.ok wlsr_converted ∧
    windPlotMarks wlsr_converted = .ok (wlsr_converted.map expectedMark) ∧
    wlsr_converted.map expectedMark = [.regular, .high, .regular, .regular] :=
  ⟨by with_unfolding_all rfl,
   (wind_reports_plotted_once wlsr_sample wlsr_converted (by with_unfolding_all rfl)).1,
   by with_unfolding_all rfl⟩

/-! ## HRRR meteogram row filtering (part_000, lines 146-172)

The point data is a table of rows `(alt, Temperature_isobaric,
Dewpoint_temperature_isobaric)` indexed by integer labels `0, 1, ...`.  The
deletion loop iterates over the original table's `(label, row)` pairs while
`df = df.drop(index)` rebuilds the accumulator without the offending label.
-/

structure HrrrRow where
  alt : ℚ
  temperature_isobaric : ℚ
  dewpoint_temperature_isobaric : ℚ
deriving DecidableEq

/-- The row-deletion loop (lines 149-153): `for index, row in df.iterrows():
if row['alt'] != 100000: df = df.drop(index)`. -/
def hrrr_drop_loop (df : List HrrrRow) : List (ℕ × HrrrRow) :=
  df.enum.foldl
    (fun acc p =>
      if p.2.alt ≠ 100000 then acc.filter (fun q => decide (q.1 ≠ p.1)) else acc)
    df.enum

/-- `df = df.reset_index(drop=True)` (line 155): keep the surviving rows in
order and discard the old labels. -/
def hrrr_filtered (df : List HrrrRow) : List HrrrRow :=
  (hrrr_drop_loop df).map Prod.snd

/-- The derived forecast timestamps (lines 157-172): row `k` of the filtered
table gets `future_time = current_time + k` hours (the `strftime` formatting
is elided; time is counted in whole hours). -/
def hrrr_future_time (current_time : ℤ) (df : List HrrrRow) : List ℤ :=
  (hrrr_filtered df).enum.map (fun p => current_time + (p.1 : ℤ))

theorem hrrr_drop_loop_foldl (t : ℚ) (todo init : List (ℕ × HrrrRow)) :
    todo.foldl
      (fun acc p =>
        if p.2.alt ≠ t then acc.filter (fun q => decide (q.1 ≠ p.1)) else acc)
      init
      = init.filter
          (fun q => todo.all (fun p => decide (p.2.alt = t) || decide (q.1 ≠ p.1))) := by
  induction todo generalizing init with
  | nil => simp
  | cons p todo ih =>
    rw [List.foldl_cons, ih]
    by_cases hp : p.2.alt = t
    · rw [if_neg (by simpa using hp)]
      refine List.filter_congr (fun q _ => ?_)
      simp [hp]
    · rw [if_pos hp, List.filter_filter]
      refine List.filter_congr (fun q _ => ?_)
      simp only [List.all_cons, decide_eq_true_eq]
      rw [decide_eq_false hp]
      rw [Bool.false_or, Bool.and_comm]

theorem hrrr_drop_loop_eq (df : List HrrrRow) :
    hrrr_drop_loop df = df.enum.filter (fun q => decide (q.2.alt = 100000)) := by
  unfold hrrr_drop_loop
  rw [hrrr_drop_loop_foldl]
  refine List.filter_congr (fun q hq => ?_)
  rw [List.mem_enum_iff_getElem?] at hq
  by_cases halt : q.2.alt = 100000
  · rw [decide_eq_true halt, List.all_eq_true]
    intro p hp
    rw [List.mem_enum_iff_getElem?] at hp
    by_cases hidx : p.1 = q.1
    · have : p.2 = q.2 := by
        rw [hidx] at hp
        rw [hp] at hq
        injection hq
      simp [this, halt]
    · simp only [Bool.or_eq_true, decide_eq_true_eq]
      exact Or.inr (fun hc => hidx hc.symm)
  · rw [decide_eq_false halt]
    refine List.all_eq_false.mpr ⟨q, List.mem_enum_iff_getElem?.mpr hq, ?_⟩
    simp [halt]

/-- Claim C4: after the row-filtering loop and `reset_index`, the HRRR table
holds exactly the rows whose `alt` equals `100000`, in their original
relative order, and the derived `future_time` column afterwards assigns
`current_time + k` hours to the `k`-th surviving row. -/
theorem hrrr_filter_rows (current_time : ℤ) (df : List HrrrRow) :
    hrrr_filtered df = df.filter (fun r => decide (r.alt = 100000)) ∧
    hrrr_future_time current_time df =
      (List.range (df.filter (fun r => decide (r.alt = 100000))).length).map
        (fun k : ℕ => current_time + (k : ℤ)) := by
  have hmain : hrrr_filtered df = df.filter (fun r => decide (r.alt = 100000)) := by
    unfold hrrr_filtered
    rw [hrrr_drop_loop_eq]
    conv_rhs => rw [← List.enum_map_snd df, List.filter_map]
    rfl
  refine ⟨hmain, ?_⟩
  unfold hrrr_future_time
  rw [hmain]
  have hfst := List.enum_map_fst (df.filter (fun r => decide (r.alt = 100000)))
  rw [← hfst, List.map_map]
  rfl

/-! ## ACARS sounding parsing (part_000, lines 23-48)

`data.find`, slicing and stripping over `List Char`, the sentinel markers
`%RAW%`/`%END%`, and the six-column table build.
-/

/-- First index at which `pat` occurs as a contiguous block of `hay`. -/
def strFind (pat : List Char) : List Char → Option ℕ
  | [] => if pat = [] then some 0 else none
  | c :: rest =>
    if (c :: rest).take pat.length = pat then some 0
    else (strFind pat rest).map (· + 1)

/-- Python `hay.find(pat)`: first index of `pat` in `hay`, `-1` if absent. -/
def pyFind (hay pat : List Char) : ℤ :=
  match strFind pat hay with
  | some n => n
  | none => -1

/-- Normalize a Python slice endpoint: negative values count from the end,
and endpoints are clamped to the string. -/
def pyBound (n : ℕ) (i : ℤ) : ℕ :=
  if i < 0 then n - (-i).toNat else min i.toNat n

/-- Python slice `l[a:b]`. -/
def pySlice (l : List Char) (a b : ℤ) : List Char :=
  (l.take (pyBound l.length b)).drop (pyBound l.length a)

def rawMarker : List Char := "%RAW%".data

def endMarker : List Char := "%END%".data

/-- Lines 28-31: `start_pos = data.find("%RAW%") + len("%RAW%")`,
`end_pos = data.find("%END%")`,
`data_section = data[start_pos:end_pos].strip()`. -/
def acars_data_section (data : List Char) : List Char :=
  pyStrip (pySlice data (pyFind data rawMarker + 5) (pyFind data endMarker))

/-- Lines 39-44: for each non-empty stripped line, split on commas; building
the six-column `pd.DataFrame([values], columns=[...])` raises `ValueError`
unless the line has exactly six values. -/
def acars_rows_of_lines : List (List Char) → Except String (List (List (List Char)))
  | [] => .ok []
  | line :: rest =>
    if (pyStrip line).isEmpty then acars_rows_of_lines rest
    else if ((pyStrip line).splitOn ',').length = 6 then
      match acars_rows_of_lines rest with
      | .ok rows => .ok ((pyStrip line).splitOn ',' :: rows)
      | .error e => .error e
    else .error "ValueError"

/-- Lines 28-44: the string-valued ACARS table, built from the section
between the sentinels by splitting into lines and dropping the first. -/
def acars_raw_rows (data : List Char) : Except String (List (List (List Char))) :=
  acars_rows_of_lines (((acars_data_section data).splitOn '\n').drop 1)

/-- Line 46: `df = df.apply(pd.to_numeric, errors='coerce')`; a `none` cell
is NaN. -/
def acars_df (data : List Char) : Except String (List (List (Option ℚ))) :=
  match acars_raw_rows data with
  | .ok rows => .ok (rows.map (List.map parseFloatTok))
  | .error e => .error e

/-- The table claim C3 describes, built from the block `mid` between the
sentinel markers alone: strip it, skip its first line, split each remaining
non-empty line on commas into six columns, and coerce every cell to a
numeric value. -/
def acars_block_df (mid : List Char) : Except String (List (List (Option ℚ))) :=
  match acars_rows_of_lines (((pyStrip mid).splitOn '\n').drop 1) with
  | .ok rows => .ok (rows.map (List.map parseFloatTok))
  | .error e => .error e

theorem acars_rows_of_lines_len :
    ∀ {lines : List (List Char)} {rows : List (List (List Char))},
      acars_rows_of_lines lines = .ok rows → ∀ row ∈ rows, row.length = 6 := by
  intro lines
  induction lines with
  | nil =>
    intro rows h
    cases h
    intro row hrow
    cases hrow
  | cons line rest ih =>
    intro rows h
    unfold acars_rows_of_lines at h
    split at h
    · exact ih h
    · split at h
      · rename_i hlen6
        cases hr : acars_rows_of_lines rest <;> rw [hr] at h
        · cases h
        · cases h
          intro row hrow
          rcases List.mem_cons.mp hrow with rfl | hrow2
          · exact hlen6
          · exact ih hr row hrow2
      · cases h

theorem pySlice_append (A mid E : List Char) :
    pySlice (A ++ (mid ++ E)) (A.length : ℤ) (((A.length + mid.length : ℕ) : ℤ)) = mid := by
  have hn : (A ++ (mid ++ E)).length = A.length + (mid.length + E.length) := by
    simp [List.length_append]
  unfold pySlice pyBound
  rw [if_neg (by omega), if_neg (by omega)]
  rw [Int.toNat_natCast, Int.toNat_natCast]
  rw [min_eq_left (by omega), min_eq_left (by omega)]
  rw [List.take_append mid.length, List.take_left, List.drop_left]

theorem acars_data_section_marked (pre mid post : List Char)
    (h1 : strFind rawMarker (pre ++ rawMarker ++ mid ++ endMarker ++ post) = some pre.length)
    (h2 : strFind endMarker (pre ++ rawMarker ++ mid ++ endMarker ++ post)
            = some (pre.length + 5 + mid.length)) :
    acars_data_section (pre ++ rawMarker ++ mid ++ endMarker ++ post) = pyStrip mid := by
  unfold acars_data_section pyFind
  rw [h1, h2]
  have h5 : rawMarker.length = 5 := rfl
  have hA : (pre ++ rawMarker).length = pre.length + 5 := by simp [h5]
  have key := pySlice_append (pre ++ rawMarker) mid (endMarker ++ post)
  rw [hA] at key
  have harg1 : ((pre.length + 5 : ℕ) : ℤ) = (pre.length : ℤ) + 5 := by push_cast; ring
  rw [harg1] at key
  have hassoc : pre ++ rawMarker ++ mid ++ endMarker ++ post
      = (pre ++ rawMarker) ++ (mid ++ (endMarker ++ post)) := by
    simp [List.append_assoc]
  rw [hassoc]
  exact congrArg pyStrip key

/-- Claim C3: the ACARS table is built exclusively from the text between the
sentinels `%RAW%` and `%END%`: when the sentinels first occur at the
displayed positions, the table equals the one built from the block alone by
skipping its first line, splitting each remaining non-empty line on commas
into six columns, and coercing every cell to numeric (`none` = NaN), and
every row of a successfully built table has exactly six (numeric) cells. -/
theorem acars_table_from_marked_block (pre mid post : List Char)
    (h1 : strFind rawMarker (pre ++ rawMarker ++ mid ++ endMarker ++ post) = some pre.length)
    (h2 : strFind endMarker (pre ++ rawMarker ++ mid ++ endMarker ++ post)
            = some (pre.length + 5 + mid.length)) :
    acars_df (pre ++ rawMarker ++ mid ++ endMarker ++ post) = acars_block_df mid ∧
    (∀ rows, acars_df (pre ++ rawMarker ++ mid ++ endMarker ++ post) = .ok rows →
      ∀ row ∈ rows, row.length = 6) := by
  have hsec := acars_data_section_marked pre mid post h1 h2
  have hdf : acars_df (pre ++ rawMarker ++ mid ++ endMarker ++ post) = acars_block_df mid := by
    unfold acars_df acars_raw_rows acars_block_df
    rw [hsec]
  refine ⟨hdf, ?_⟩
  intro rows hrows row hrow
  rw [hdf] at hrows
  unfold acars_block_df at hrows
  cases hraw : acars_rows_of_lines (((pyStrip mid).splitOn '\n').drop 1) <;>
    rw [hraw] at hrows
  · cases hrows
  · cases hrows
    rw [List.mem_map] at hrow
    obtain ⟨row0, hrow0, rfl⟩ := hrow
    rw [List.length_map]
    exact acars_rows_of_lines_len hraw row0 hrow0

def acars_pre : List Char := "x".data

def acars_mid : List Char := "\nH\n1,2,3,4,5,6\n".data

def acars_post : List Char := "z".data

theorem acars_table_from_marked_block_witness :
    strFind rawMarker (acars_pre ++ rawMarker ++ acars_mid ++ endMarker ++ acars_post)
      = some acars_pre.length ∧
    strFind endMarker (acars_pre ++ rawMarker ++ acars_mid ++ endMarker ++ acars_post)
      = some (acars_pre.length + 5 + acars_mid.length) ∧
    acars_df (acars_pre ++ rawMarker ++ acars_mid ++ endMarker ++ acars_post)
      = acars_block_df acars_mid ∧
    acars_block_df acars_mid
      = .ok [[some 1, some 2, some 3, some 4, some 5, some 6]] :=
  ⟨by decide, by decide,
   (acars_table_from_marked_block acars_pre acars_mid acars_post (by decide) (by decide)).1,
   by with_unfolding_all rfl⟩

/-- A well-formed ACARS response and one missing the `%RAW%` sentinel. -/
def acars_ok_data : List Char := "%RAW%\nH\n1,2,3,4,5,6\n%END%".data

def acars_bad_data : List Char := "xxxx\nH\n1,2,3,4,5,6\n%END%".data

/-- Counterexample to claim C7 as stated: an ACARS response missing the
`%RAW%` sentinel raises nothing; `find` returns `-1`, so `start_pos = 4` and
the script slices `data[4:end_pos]`, which here parses to the very same
all-numeric table as the well-formed response, after which the rest of the
script (a deterministic function of the table and constants) behaves
identically and plots rather than terminating with an error. -/
theorem acars_missing_sentinel_parses :
    strFind rawMarker acars_bad_data = none ∧
    acars_df acars_bad_data = acars_df acars_ok_data ∧
    acars_df acars_ok_data = .ok [[some 1, some 2, some 3, some 4, some 5, some 6]] :=
  ⟨by decide, by with_unfolding_all rfl, by with_unfolding_all rfl⟩

/-- Claim C7 (amended): the ACARS, HRRR and RAOB scripts install no
exception handler, so an error raised while the ACARS table is built (a data
line with other than six comma-separated values) propagates uncaught past
the numeric-coercion stage to the script's result; a malformed response
without a sentinel, however, need not raise at all. -/
theorem acars_error_uncaught (data : List Char) (e : String)
    (h : acars_raw_rows data = .error e) :
    acars_df data = .error e := by
  unfold acars_df
  rw [h]

/-- An ACARS response whose data line has only three values. -/
def acars_short_row_data : List Char := "%RAW%\nH\n1,2,3\n%END%".data

theorem acars_error_uncaught_witness :
    acars_raw_rows acars_short_row_data = .error "ValueError" ∧
    acars_df acars_short_row_data = .error "ValueError" :=
  ⟨by decide, acars_error_uncaught acars_short_row_data "ValueError" (by decide)⟩

/-! ## Vertical log-linear interpolation (part_000, lines 236-264)

`np.interp` over `(x, f)` pairs with ascending `x`, and
`vertical_interpolate`, parametric in the coordinate transform (`np.log` in
the source, so the claims instantiate it with `Real.log` over `ℝ`).
-/

/-- One query of `np.interp x xp fp`, with the abscissas ascending and
zipped against the ordinates: queries left of the first point or right of
the last return the endpoint ordinate, interior queries interpolate linearly
on the bracketing segment.  (`np.interp` on an empty array raises; the `[]`
case is junk.) -/
def interpSeg {α : Type} [LinearOrderedField α] (x : α) : List (α × α) → α
  | [] => 0
  | [p] => p.2
  | p :: q :: rest =>
    if x ≤ p.1 then p.2
    else if x ≤ q.1 then p.2 + (q.2 - p.2) * (x - p.1) / (q.1 - p.1)
    else interpSeg x (q :: rest)

/-- `vertical_interpolate(vcoord_data, interp_var, interp_levels)`
(lines 236-264), parametric in the transform `f` applied to the vertical
coordinate (`np.log` in the source).  `np.interp` runs on the reversed
transformed arrays (the source reverses to make them ascending and reverses
the result back, which per query is the identity), and the two masks then
overwrite levels above the first or below the last observed value; the
`mask_high` assignment runs second, so it wins if both masks hold. -/
def vertical_interpolate {α : Type} [LinearOrderedField α] (f : α → α)
    (vcoord_data interp_var interp_levels : List α) : List α :=
  interp_levels.map (fun L =>
    if L < vcoord_data.getLastD 0 then interp_var.getLastD 0
    else if vcoord_data.headD 0 < L then interp_var.headD 0
    else interpSeg (f L) (((vcoord_data.map f).reverse).zip interp_var.reverse))

theorem interpSeg_cons₂ {α : Type} [LinearOrderedField α] (x : α) (p q : α × α)
    (rest : List (α × α)) :
    interpSeg x (p :: q :: rest) =
      if x ≤ p.1 then p.2
      else if x ≤ q.1 then p.2 + (q.2 - p.2) * (x - p.1) / (q.1 - p.1)
      else interpSeg x (q :: rest) := rfl

theorem interpSeg_append {α : Type} [LinearOrderedField α] (x : α) :
    ∀ (pre : List (α × α)) (a : α × α) (l : List (α × α)),
      (∀ p ∈ pre, p.1 < x) → a.1 < x →
      interpSeg x (pre ++ a :: l) = interpSeg x (a :: l) := by
  intro pre
  induction pre with
  | nil => intro a l _ _; rfl
  | cons c pre ih =>
    intro a l hpre ha
    have hc : c.1 < x := hpre c (List.mem_cons_self c pre)
    cases pre with
    | nil =>
      rw [List.cons_append, List.nil_append, interpSeg_cons₂,
        if_neg (not_le.mpr hc), if_neg (not_le.mpr ha)]
    | cons c2 pre2 =>
      have hc2 : c2.1 < x := hpre c2 (List.mem_cons_of_mem c (List.mem_cons_self c2 pre2))
      rw [List.cons_append, List.cons_append, interpSeg_cons₂,
        if_neg (not_le.mpr hc), if_neg (not_le.mpr hc2), ← List.cons_append]
      exact ih a l (fun p hp => hpre p (List.mem_cons_of_mem c hp)) ha

theorem interpSeg_segment {α : Type} [LinearOrderedField α] (x : α) :
    ∀ (i : ℕ) (l : List (α × α)) (hi : i < l.length) (hi1 : i + 1 < l.length),
      l.Chain' (fun p q => p.1 < q.1) →
      (l.get ⟨i, hi⟩).1 ≤ x → x ≤ (l.get ⟨i + 1, hi1⟩).1 →
      interpSeg x l =
        (l.get ⟨i, hi⟩).2 +
          ((l.get ⟨i + 1, hi1⟩).2 - (l.get ⟨i, hi⟩).2) * (x - (l.get ⟨i, hi⟩).1)
            / ((l.get ⟨i + 1, hi1⟩).1 - (l.get ⟨i, hi⟩).1) := by
  intro i
  induction i with
  | zero =>
    intro l hi hi1 hchain hx0 hx1
    match l, hi, hi1, hchain, hx0, hx1 with
    | p :: q :: rest, _, _, hchain, hx0, hx1 =>
      simp only [List.get_eq_getElem, List.getElem_cons_zero, List.getElem_cons_succ]
        at hx0 hx1 ⊢
      rw [interpSeg_cons₂]
      by_cases hxp : x ≤ p.1
      · have hxe : x = p.1 := le_antisymm hxp hx0
        rw [if_pos hxp, hxe, sub_self, mul_zero, zero_div, add_zero]
      · rw [if_neg hxp, if_pos hx1]
  | succ j ih =>
    intro l hi hi1 hchain hx0 hx1
    match l, hi, hi1, hchain, hx0, hx1 with
    | p :: q :: rest, hi, hi1, hchain, hx0, hx1 =>
      have hpq : p.1 < q.1 := (List.chain'_cons.mp hchain).1
      have htail : (q :: rest).Chain' (fun p q => p.1 < q.1) :=
        (List.chain'_cons.mp hchain).2
      simp only [List.get_eq_getElem, List.getElem_cons_succ] at hx0 hx1 ⊢
      have hj : j < (q :: rest).length := by
        simp only [List.length_cons] at hi ⊢
        omega
      have hj1 : j + 1 < (q :: rest).length := by
        simp only [List.length_cons] at hi1 ⊢
        omega
      by_cases hxq : x ≤ q.1
      · -- Then x is pinched: j = 0 and x = q.1.
        have hq_le : q.1 ≤ (q :: rest)[j].1 := by
          rcases Nat.eq_zero_or_pos j with rfl | hjpos
          · simp
          · haveI : IsTrans (α × α) (fun p q => p.1 < q.1) :=
              ⟨fun a b c h1 h2 => lt_trans h1 h2⟩
            have hpw := (List.chain'_iff_pairwise).mp htail
            have := (List.pairwise_iff_getElem).mp hpw 0 j (by omega) hj hjpos
            simp only [List.getElem_cons_zero] at this
            exact le_of_lt this
        have hxe : x = q.1 := le_antisymm hxq (le_trans hq_le hx0)
        have hj0 : j = 0 := by
          by_contra hjne
          have hjpos : 0 < j := Nat.pos_of_ne_zero hjne
          haveI : IsTrans (α × α) (fun p q => p.1 < q.1) :=
            ⟨fun a b c h1 h2 => lt_trans h1 h2⟩
          have hpw := (List.chain'_iff_pairwise).mp htail
          have hlt := (List.pairwise_iff_getElem).mp hpw 0 j (by omega) hj hjpos
          simp only [List.getElem_cons_zero] at hlt
          have : q.1 < x := lt_of_lt_of_le hlt hx0
          exact (ne_of_gt this) hxe
        subst hj0
        simp only [List.getElem_cons_zero] at hx0 hx1 ⊢
        rw [interpSeg_cons₂, if_neg (not_le.mpr (hxe ▸ hpq)), if_pos hxq, hxe]
        have hne : q.1 - p.1 ≠ 0 := sub_ne_zero.mpr (ne_of_gt hpq)
        rw [mul_div_assoc, div_self hne, mul_one, sub_self, mul_zero, zero_div,
          add_zero]
        ring
      · rw [interpSeg_cons₂, if_neg (not_le.mpr (lt_trans hpq (not_le.mp hxq))),
          if_neg hxq]
        have := ih (q :: rest) hj hj1 htail
          (by simpa using hx0) (by simpa using hx1)
        simpa using this

theorem get_congr_idx {β : Type} (l : List β) (a b : ℕ) (ha : a < l.length)
    (hb : b < l.length) (h : a = b) : l.get ⟨a, ha⟩ = l.get ⟨b, hb⟩ := by
  subst h
  rfl

theorem getElem_congr_idx {β : Type} (l : List β) (a b : ℕ) (ha : a < l.length)
    (hb : b < l.length) (h : a = b) : l[a] = l[b] := by
  subst h
  rfl

/-- Claim C1: for a strictly decreasing (positive) pressure profile, every
target level lying within the observed pressure range receives the linear
interpolation of the variable as a function of the natural logarithm of
pressure: with `vc[i+1] ≤ levels[k] ≤ vc[i]`, the `k`-th output is the
log-linear value on that segment. -/
theorem vertical_interpolate_loglinear
    (vc var levels : List ℝ) (hlen : var.length = vc.length)
    (hdec : vc.Chain' (fun a b => b < a)) (hpos : ∀ p ∈ vc, 0 < p)
    (k i : ℕ) (hk : k < levels.length)
    (hi : i < vc.length) (hi1 : i + 1 < vc.length)
    (hvi : i < var.length) (hvi1 : i + 1 < var.length)
    (hlo : vc[i + 1] ≤ levels[k]) (hhi : levels[k] ≤ vc[i]) :
    (vertical_interpolate Real.log vc var levels)[k]? =
      some (var[i + 1] + (var[i] - var[i + 1])
        * (Real.log levels[k] - Real.log vc[i + 1])
        / (Real.log vc[i] - Real.log vc[i + 1])) := by
  have hn2 : 2 ≤ vc.length := by omega
  have hvcne : vc ≠ [] := List.ne_nil_of_length_pos (by omega)
  haveI : IsTrans ℝ (fun a b : ℝ => b < a) := ⟨fun a b c h1 h2 => lt_trans h2 h1⟩
  have hpw := (List.chain'_iff_pairwise).mp hdec
  have hdlt : ∀ (a b : ℕ) (ha : a < vc.length) (hb : b < vc.length),
      a < b → vc[b] < vc[a] :=
    fun a b ha hb hab => (List.pairwise_iff_getElem).mp hpw a b ha hb hab
  have hposg : ∀ (a : ℕ) (ha : a < vc.length), 0 < vc[a] :=
    fun a ha => hpos _ (vc.getElem_mem ha)
  have hge : ∀ (a : ℕ) (ha : a < vc.length), vc[vc.length - 1] ≤ vc[a] := by
    intro a ha
    rcases Nat.lt_or_ge a (vc.length - 1) with hlt | hge2
    · exact le_of_lt (hdlt a (vc.length - 1) ha (by omega) hlt)
    · have hab : a = vc.length - 1 := by omega
      subst hab
      exact le_refl _
  have hle0 : ∀ (a : ℕ) (ha : a < vc.length), vc[a] ≤ vc[0] := by
    intro a ha
    rcases Nat.eq_zero_or_pos a with rfl | hlt
    · exact le_refl _
    · exact le_of_lt (hdlt 0 a (by omega) ha hlt)
  have hlast : vc.getLastD 0 = vc[vc.length - 1] := by
    rw [List.getLastD_eq_getLast?, List.getLast?_eq_getLast vc hvcne,
      Option.getD_some, List.getLast_eq_getElem]
  have hhead : vc.headD 0 = vc[0] := by
    rw [List.headD_eq_head?, List.head?_eq_head hvcne, Option.getD_some,
      List.head_eq_getElem]
  unfold vertical_interpolate
  rw [List.getElem?_map, List.getElem?_eq_getElem hk, Option.map_some']
  rw [if_neg (by rw [hlast]; exact not_lt.mpr (le_trans (hge (i + 1) hi1) hlo)),
    if_neg (by rw [hhead]; exact not_lt.mpr (le_trans hhi (hle0 i hi)))]
  have hlplen : (((vc.map Real.log).reverse).zip var.reverse).length = vc.length := by
    simp [hlen]
  have hget : ∀ (j : ℕ) (hj : j < vc.length),
      (((vc.map Real.log).reverse).zip var.reverse).get ⟨j, by rw [hlplen]; exact hj⟩ =
        (Real.log (vc.get ⟨vc.length - 1 - j, by omega⟩),
         var.get ⟨vc.length - 1 - j, by omega⟩) := by
    intro j hj
    rw [List.get_eq_getElem, List.getElem_zip, List.getElem_reverse,
      List.getElem_reverse, List.getElem_map]
    refine Prod.ext ?_ ?_
    · show Real.log _ = Real.log _
      refine congrArg Real.log ?_
      rw [List.get_eq_getElem]
      exact getElem_congr_idx vc _ _ (by simp only [List.length_map]; omega)
        (by omega) (by simp only [List.length_map])
    · show var[var.length - 1 - j] = _
      rw [List.get_eq_getElem]
      exact getElem_congr_idx var _ _ (by omega) (by omega) (by omega)
  have hchainlp : (((vc.map Real.log).reverse).zip var.reverse).Chain'
      (fun p q => p.1 < q.1) := by
    rw [List.chain'_iff_get]
    intro j hj
    have hjv : j < vc.length := by rw [hlplen] at hj; omega
    have hjv1 : j + 1 < vc.length := by rw [hlplen] at hj; omega
    rw [hget j hjv, hget (j + 1) hjv1]
    show Real.log _ < Real.log _
    refine Real.log_lt_log ?_ ?_
    · show (0 : ℝ) < vc.get _
      simp only [List.get_eq_getElem]
      exact hposg _ (by omega)
    · simp only [List.get_eq_getElem]
      exact hdlt (vc.length - 1 - (j + 1)) (vc.length - 1 - j) (by omega) (by omega)
        (by omega)
  have hj0 : vc.length - 2 - i < (((vc.map Real.log).reverse).zip var.reverse).length := by
    rw [hlplen]
    omega
  have hj01 : (vc.length - 2 - i) + 1
      < (((vc.map Real.log).reverse).zip var.reverse).length := by
    rw [hlplen]
    omega
  have e1 : vc.length - 1 - (vc.length - 2 - i) = i + 1 := by omega
  have e2 : vc.length - 1 - (vc.length - 2 - i + 1) = i := by omega
  have hc1 : ((((vc.map Real.log).reverse).zip var.reverse).get
      ⟨vc.length - 2 - i, hj0⟩).1 ≤ Real.log levels[k] := by
    rw [hget (vc.length - 2 - i) (by omega)]
    show Real.log _ ≤ _
    rw [get_congr_idx vc _ _ (by omega) (by omega) e1]
    simp only [List.get_eq_getElem]
    exact Real.log_le_log (hposg _ hi1) hlo
  have hc2 : Real.log levels[k] ≤ ((((vc.map Real.log).reverse).zip var.reverse).get
      ⟨vc.length - 2 - i + 1, hj01⟩).1 := by
    rw [hget (vc.length - 2 - i + 1) (by omega)]
    show _ ≤ Real.log _
    rw [get_congr_idx vc _ _ (by omega) (by omega) e2]
    simp only [List.get_eq_getElem]
    exact Real.log_le_log (lt_of_lt_of_le (hposg _ hi1) hlo) hhi
  have hseg := interpSeg_segment (Real.log levels[k]) (vc.length - 2 - i)
    (((vc.map Real.log).reverse).zip var.reverse) hj0 hj01 hchainlp hc1 hc2
  rw [hseg, hget (vc.length - 2 - i) (by omega), hget (vc.length - 2 - i + 1) (by omega)]
  rw [get_congr_idx vc _ _ (by omega) (by omega) e1,
    get_congr_idx vc _ _ (by omega) (by omega) e2,
    get_congr_idx var _ _ (by omega) (by omega) e1,
    get_congr_idx var _ _ (by omega) (by omega) e2]
  simp only [List.get_eq_getElem]

theorem vertical_interpolate_loglinear_witness :
    (vertical_interpolate Real.log [Real.exp 1, Real.exp 0] [10, 20]
        [Real.exp (1/2)])[0]? =
      some (20 + (10 - 20) * (Real.log (Real.exp (1/2)) - Real.log (Real.exp 0))
        / (Real.log (Real.exp 1) - Real.log (Real.exp 0))) := by
  have h := vertical_interpolate_loglinear [Real.exp 1, Real.exp 0] [10, 20]
    [Real.exp (1/2)] rfl
    (List.chain'_pair.mpr (Real.exp_lt_exp.mpr (by norm_num)))
    (by
      intro p hp
      simp only [List.mem_cons, List.not_mem_nil, or_false] at hp
      rcases hp with rfl | rfl
      · exact Real.exp_pos 1
      · exact Real.exp_pos 0)
    0 0 (by norm_num) (by norm_num) (by norm_num) (by norm_num) (by norm_num)
    (by
      show Real.exp 0 ≤ Real.exp (1/2)
      exact Real.exp_le_exp.mpr (by norm_num))
    (by
      show Real.exp (1/2) ≤ Real.exp 1
      exact Real.exp_le_exp.mpr (by norm_num))
  exact h

/-- Counterexample to claim C2 as stated: calling `vertical_interpolate` on
the increasing profile `[1, 10]` with variable values `[5, 7]`, the target
level `3` is greater than the first observed pressure value `1`, yet it
receives the last variable value `7` rather than the first value `5`,
because the `mask_high` assignment (line 262) runs after the `mask_low`
assignment (line 261) and overwrites it. -/
theorem vertical_interpolate_clamp_counterexample :
    (1 : ℝ) < 3 ∧
    (vertical_interpolate Real.log [1, 10] [5, 7] [3])[0]? = some 7 ∧
    (7 : ℝ) ≠ 5 := by
  refine ⟨by norm_num, ?_, by norm_num⟩
  unfold vertical_interpolate
  have h0 : (([3] : List ℝ))[0]? = some 3 := rfl
  rw [List.getElem?_map, h0, Option.map_some']
  rw [if_pos (by show (3 : ℝ) < 10; norm_num)]
  rfl

/-- Claim C2 (amended): whenever the last observed pressure value does not
exceed the first — as holds for the decreasing profiles the function is
written for — every target level greater than the first observed pressure
value receives exactly the first variable value, and every target level
smaller than the last observed pressure value receives exactly the last
variable value, with no other edge-case policy; the `mask_high` clamp is
applied second, so on profiles whose last value exceeds the first it
overrides `mask_low`. -/
theorem vertical_interpolate_clamp
    (vc var levels : List ℝ) (hord : vc.getLastD 0 ≤ vc.headD 0)
    (k : ℕ) (hk : k < levels.length) :
    (levels[k] < vc.getLastD 0 →
      (vertical_interpolate Real.log vc var levels)[k]? = some (var.getLastD 0)) ∧
    (vc.headD 0 < levels[k] →
      (vertical_interpolate Real.log vc var levels)[k]? = some (var.headD 0)) := by
  unfold vertical_interpolate
  rw [List.getElem?_map, List.getElem?_eq_getElem hk, Option.map_some']
  constructor
  · intro hlow
    rw [if_pos hlow]
  · intro hhigh
    rw [if_neg (not_lt.mpr (le_trans hord (le_of_lt hhigh))), if_pos hhigh]

theorem vertical_interpolate_clamp_witness :
    ([10, 1] : List ℝ).getLastD 0 ≤ ([10, 1] : List ℝ).headD 0 ∧
    (vertical_interpolate Real.log [10, 1] [5, 7] [20, 1/2])[0]? = some 5 ∧
    (vertical_interpolate Real.log [10, 1] [5, 7] [20, 1/2])[1]? = some 7 := by
  refine ⟨by show (1 : ℝ) ≤ 10; norm_num, ?_, ?_⟩
  · exact (vertical_interpolate_clamp [10, 1] [5, 7] [20, 1/2]
      (by show (1 : ℝ) ≤ 10; norm_num) 0 (by norm_num)).2
      (by show (10 : ℝ) < 20; norm_num)
  · exact (vertical_interpolate_clamp [10, 1] [5, 7] [20, 1/2]
      (by show (1 : ℝ) ≤ 10; norm_num) 1 (by norm_num)).1
      (by show (1/2 : ℝ) < 1; norm_num)
